import Mathlib

/-!
Verification development for the document-ingestion and vector-retrieval
subsystem of a retrieval-augmented-generation web application.

The embedding below translates the TypeScript sources:
  - src/lib/supabase-vector-store.ts  (vector store, cosine similarity, search)
  - src/lib/document-processor.ts     (chunker, PDF extraction fallback chain)
  - src/lib/embeddings.ts             (embedding client)
  - src/app/api/chat/route.ts         (retrieval-augmented answerer)

Modelling conventions:
  - JavaScript numbers are modelled as real numbers, together with an explicit
    JFloat type carrying the special values NaN and the two infinities that
    arise from division; real-number comparisons use classical decidability,
    so the numeric definitions are noncomputable (they are exact models of
    floating-point expressions involving square roots).
  - Asynchronous functions that can reject are modelled as Except-valued
    functions: a thrown/rejected error is "Except.error", a normal resolution
    is "Except.ok".  External I/O (the database, the model provider) is passed
    in as explicit data: the database is a list of stored rows, and each
    fallible backend call takes an "Option String" failure oracle (some msg =
    the backend reported an error with that message).
  - JavaScript Array.prototype.sort with a comparator is modelled as a stable
    sort (insertion sort) driven by the ECMAScript SortCompare semantics: a
    comparator result of NaN is treated as 0 (a tie).
  - Strings being chunked are modelled as lists of characters; String.trim is
    modelled via Char.isWhitespace.
-/

/-! ### JavaScript number model -/

/-- Result of a JavaScript floating-point expression: either a real number or
one of the special values NaN, Infinity, -Infinity. -/
inductive JFloat where
  | num : ℝ → JFloat
  | nan : JFloat
  | inf : JFloat
  | ninf : JFloat

/-- JavaScript division x / y on real operands: division by zero yields NaN
when the numerator is also zero, otherwise a signed infinity. -/
noncomputable def jsDiv (x y : ℝ) : JFloat :=
  if y = 0 then (if x = 0 then .nan else if 0 < x then .inf else .ninf)
  else .num (x / y)

/-- JavaScript subtraction on JFloat values (used by the sort comparator
"b.similarity - a.similarity"). -/
def jfSub : JFloat → JFloat → JFloat
  | .num a, .num b => .num (a - b)
  | .nan, _ => .nan
  | _, .nan => .nan
  | .inf, .inf => .nan
  | .ninf, .ninf => .nan
  | .inf, _ => .inf
  | .ninf, _ => .ninf
  | .num _, .inf => .ninf
  | .num _, .ninf => .inf

/-- ECMAScript SortCompare: an element x may stay before y exactly when the
comparator value is not positive; a NaN comparator value is treated as 0,
hence as a tie. -/
def sortKeyNonPos : JFloat → Prop
  | .num v => v ≤ 0
  | .nan => True
  | .inf => False
  | .ninf => True

/-- The JFloat value is an actual real number. -/
def JFloat.isNum : JFloat → Prop
  | .num _ => True
  | _ => False

/-- Descending comparison used to state ranking properties: both sides are
real numbers and the left one is at least the right one. -/
def jfGe : JFloat → JFloat → Prop
  | .num a, .num b => b ≤ a
  | _, _ => False

/-! ### Data model (supabase-vector-store.ts) -/

/-- Metadata of a retrievable chunk.  The creation timestamp is kept as the
raw "created_at" column string (the source wraps it in a Date object). -/
structure ChunkMetadata where
  fileName : String
  chunkIndex : ℕ
  timestamp : String
deriving DecidableEq, Repr

/-- DocumentChunk: the atomic retrievable unit (interface DocumentChunk). -/
structure DocumentChunk where
  id : String
  text : String
  embedding : List ℝ
  metadata : ChunkMetadata

/-- A row of the "document_chunks" table. -/
structure StoredRow where
  id : String
  text : String
  embedding : List ℝ
  file_name : String
  chunk_index : ℕ
  created_at : String
  user_id : String

/-- Mapping of a database row to the DocumentChunk shape, as done by the
result-mapping code of search, searchWithDirectQuery and getAllDocuments. -/
def rowToChunk (r : StoredRow) : DocumentChunk :=
  { id := r.id
    text := r.text
    embedding := r.embedding
    metadata :=
      { fileName := r.file_name
        chunkIndex := r.chunk_index
        timestamp := r.created_at } }

/-- Input to addDocuments: a chunk without an id (Omit DocumentChunk id). -/
structure ChunkInput where
  text : String
  embedding : List ℝ
  fileName : String
  chunkIndex : ℕ
  timestamp : String

/-- Rows produced by SupabaseVectorStore.addDocuments for a list of chunk
inputs, the per-chunk generated uuids, and the inserting user: each chunk is
inserted with the supplied fresh id and with user_id set to the caller. -/
def addedRows (chunks : List ChunkInput) (ids : List String) (userId : String) :
    List StoredRow :=
  (chunks.zip ids).map fun p =>
    { id := p.2
      text := p.1.text
      embedding := p.1.embedding
      file_name := p.1.fileName
      chunk_index := p.1.chunkIndex
      created_at := p.1.timestamp
      user_id := userId }

/-- SupabaseVectorStore.addDocuments on its success path: every chunk is
inserted into the table (appended), and the generated ids are returned. -/
def addDocuments (table : List StoredRow) (chunks : List ChunkInput)
    (ids : List String) (userId : String) : List StoredRow × List String :=
  (table ++ addedRows chunks ids userId, (chunks.zip ids).map (·.2))

/-! ### Cosine similarity (SupabaseVectorStore.cosineSimilarity) -/

/-- Dot product accumulated over the common indices of two vectors (the
source loops over indices of the first vector after checking equal length). -/
def dotProduct (a b : List ℝ) : ℝ :=
  ((a.zip b).map (fun p => p.1 * p.2)).sum

/-- Sum of squares of the entries of a vector (the normA / normB
accumulators of the source loop). -/
def normSq (a : List ℝ) : ℝ := (a.map (fun x => x * x)).sum

/-- SupabaseVectorStore.cosineSimilarity: vectors of mismatched length give
0; otherwise dotProduct divided by the product of the square roots of the
two squared norms, with JavaScript division semantics. -/
noncomputable def cosineSimilarity (a b : List ℝ) : JFloat :=
  if a.length ≠ b.length then .num 0
  else jsDiv (dotProduct a b) (Real.sqrt (normSq a) * Real.sqrt (normSq b))

/-! ### Search (SupabaseVectorStore.search / searchWithDirectQuery) -/

/-- Comparator-induced order on (row, similarity) pairs: x may stay before y
exactly when the comparator "y.similarity - x.similarity" is not positive
(NaN comparator values count as ties). -/
def simRowLe (x y : StoredRow × JFloat) : Prop :=
  sortKeyNonPos (jfSub y.2 x.2)

open Classical in
noncomputable instance : DecidableRel simRowLe :=
  fun _ _ => propDecidable _

/-- Strict threshold test "item.similarity > 0.5" of the source; a NaN
similarity fails the test. -/
def simGtHalf : JFloat → Prop
  | .num v => (1 : ℝ) / 2 < v
  | _ => False

open Classical in
noncomputable instance : DecidablePred simGtHalf :=
  fun _ => propDecidable _

open Classical in
/-- SupabaseVectorStore.searchWithDirectQuery: fetch up to 500 rows of the
caller (an error in the fetch is swallowed and yields an empty result, not a
rejection), attach the client-side cosine similarity to every candidate,
sort by the descending-similarity comparator, cut to topK, apply the strict
0.5 threshold, and map rows to chunks. -/
noncomputable def searchWithDirectQuery (table : List StoredRow)
    (queryEmbedding : List ℝ) (topK : ℕ) (userId : String)
    (fetchErr : Option String) : Except String (List DocumentChunk) :=
  match fetchErr with
  | some _ => .ok []
  | none =>
    let allData := (table.filter (fun r => r.user_id == userId)).take 500
    let similarities :=
      allData.map (fun r => (r, cosineSimilarity queryEmbedding r.embedding))
    let sorted := List.insertionSort simRowLe similarities
    .ok ((((sorted.take topK).filter (fun p => decide (simGtHalf p.2))).map
      (fun p => rowToChunk p.1)))

open Classical in
/-- Modelled from the spec: the server-side ranking function
"match_documents" is a database function that is not part of the repository
sources (only its call site is).  Per the spec it returns ranked rows:
candidates whose cosine similarity to the query exceeds the threshold,
ordered by descending similarity, truncated to the requested count.  Note
that it is not given the caller identity, so it ranks over the whole table. -/
noncomputable def match_documents (table : List StoredRow)
    (queryEmbedding : List ℝ) (threshold : ℝ) (count : ℕ) : List StoredRow :=
  let scored := table.map (fun r => (r, cosineSimilarity queryEmbedding r.embedding))
  let hits := scored.filter (fun p =>
    decide (∃ v : ℝ, p.2 = .num v ∧ threshold < v))
  ((List.insertionSort simRowLe hits).take count).map (·.1)

/-- SupabaseVectorStore.search: when the match_documents RPC succeeds
(rpcOk), its rows are filtered to the requesting user and mapped to chunks;
when the RPC is unavailable or errors, the client-side fallback
searchWithDirectQuery runs instead. -/
noncomputable def search (table : List StoredRow) (queryEmbedding : List ℝ)
    (topK : ℕ) (userId : String) (rpcOk : Bool) (fetchErr : Option String) :
    Except String (List DocumentChunk) :=
  if rpcOk then
    .ok (((match_documents table queryEmbedding ((1 : ℝ)/2) topK).filter
      (fun r => r.user_id == userId)).map rowToChunk)
  else searchWithDirectQuery table queryEmbedding topK userId fetchErr

/-! ### Listing and counting (getAllDocuments / getCount) -/

/-- SupabaseVectorStore.getAllDocuments: select the rows of the user ordered
by created_at descending; a backend error is swallowed and yields an empty
list, not a rejection. -/
def getAllDocuments (table : List StoredRow) (userId : String)
    (err : Option String) : Except String (List DocumentChunk) :=
  match err with
  | some _ => .ok []
  | none =>
    .ok ((List.insertionSort
      (fun a b : StoredRow => b.created_at ≤ a.created_at)
      (table.filter (fun r => r.user_id == userId))).map rowToChunk)

/-- SupabaseVectorStore.getCount: exact count of the rows of the user; a
backend error is swallowed and yields 0, not a rejection. -/
def getCount (table : List StoredRow) (userId : String) (err : Option String) :
    Except String ℕ :=
  match err with
  | some _ => .ok 0
  | none => .ok (table.filter (fun r => r.user_id == userId)).length

/-! ### Chunker (document-processor.ts, splitTextIntoChunks) -/

/-- JavaScript String.prototype.lastIndexOf for a single character: the last
index holding the character, or -1. -/
def jsLastIndexOf : List Char → Char → ℤ
  | [], _ => -1
  | x :: xs, c =>
    let r := jsLastIndexOf xs c
    if 0 ≤ r then r + 1
    else if x == c then 0 else -1

/-- JavaScript String.prototype.slice over character lists (start and end
within bounds, as in every call site of the chunker). -/
def jsSlice (l : List Char) (s e : ℕ) : List Char := (l.drop s).take (e - s)

/-- JavaScript String.prototype.trim: strip whitespace from both ends. -/
def jsTrim (l : List Char) : List Char :=
  ((l.dropWhile Char.isWhitespace).reverse.dropWhile Char.isWhitespace).reverse

/-- One iteration of the splitTextIntoChunks loop, returning the end of the
slice that is pushed and the next cursor position.  On a non-final slice the
break point is the later of the last period and the last newline of the
candidate slice; "breakPoint > chunkSize * 0.5" is the exact integer
condition 2 * breakPoint > chunkSize. -/
def splitIter (text : List Char) (chunkSize overlap start : ℕ) : ℕ × ℕ :=
  let e := min (start + chunkSize) text.length
  let chunk := jsSlice text start e
  if e < text.length then
    let lastPeriod := jsLastIndexOf chunk '.'
    let lastNewline := jsLastIndexOf chunk '\n'
    let breakPoint := max lastPeriod lastNewline
    if 2 * breakPoint > (chunkSize : ℤ) then
      (start + breakPoint.toNat + 1, start + breakPoint.toNat + 1)
    else
      (e, e - overlap)
  else
    (e, e)

/-- The splitTextIntoChunks loop, fuel-indexed: each iteration slices
text[start : pushEnd], pushes its trim when non-empty, and continues from
the next cursor.  The fuel models the unbounded while loop; the top-level
wrapper supplies fuel that is sufficient whenever 0 < overlap < chunkSize
(the parameter regime in which the source loop terminates). -/
def splitGo (text : List Char) (chunkSize overlap : ℕ) :
    ℕ → ℕ → List (List Char) → List (List Char)
  | 0, _, acc => acc
  | fuel + 1, start, acc =>
    if start < text.length then
      let p := splitIter text chunkSize overlap start
      let chunk := jsSlice text start p.1
      let acc' := if 0 < (jsTrim chunk).length then acc ++ [jsTrim chunk] else acc
      splitGo text chunkSize overlap fuel p.2 acc'
    else acc

/-- splitTextIntoChunks (source defaults: chunkSize 1000, overlap 200). -/
def splitTextIntoChunks (text : List Char) (chunkSize overlap : ℕ) :
    List (List Char) :=
  splitGo text chunkSize overlap (text.length + 1) 0 []

/-- Ghost twin of the loop recording, for each pushed chunk, the absolute
interval (start, pushEnd) of the untrimmed slice. -/
def splitIntervalsGo (text : List Char) (chunkSize overlap : ℕ) :
    ℕ → ℕ → List (ℕ × ℕ)
  | 0, _ => []
  | fuel + 1, start =>
    if start < text.length then
      let p := splitIter text chunkSize overlap start
      (start, p.1) :: splitIntervalsGo text chunkSize overlap fuel p.2
    else []

/-- Intervals of the untrimmed slices produced by splitTextIntoChunks. -/
def splitIntervals (text : List Char) (chunkSize overlap : ℕ) : List (ℕ × ℕ) :=
  splitIntervalsGo text chunkSize overlap (text.length + 1) 0

/-- Concatenation of the recorded slices with every overlapping prefix
removed: a later slice contributes only the part that lies beyond the end of
the slice before it. -/
def overlapJoin (text : List Char) : ℕ → List (ℕ × ℕ) → List Char
  | _, [] => []
  | prevEnd, (s, e) :: rest =>
    jsSlice text (max s prevEnd) e ++ overlapJoin text e rest

/-! ### PDF extraction fallback chain (document-processor.ts, processPDF) -/

/-- Extracted document: text plus originating file name and type tag. -/
structure ProcessedDocument where
  text : String
  fileName : String
  fileType : String
deriving DecidableEq, Repr

/-- processPDF: the three extraction strategies are modelled by their
outcomes on the given input (r1 = pdf-parse, r2 = pdf2json, r3 = pdfjs-dist,
in source order).  The returned trace lists which strategies were attempted,
in order.  A later strategy runs only in the catch of the previous one; if
all three fail, the aggregate error names the last underlying cause. -/
def processPDF (r1 r2 r3 : Except String ProcessedDocument) :
    Except String ProcessedDocument × List ℕ :=
  match r1 with
  | .ok d => (.ok d, [1])
  | .error _ =>
    match r2 with
    | .ok d => (.ok d, [1, 2])
    | .error _ =>
      match r3 with
      | .ok d => (.ok d, [1, 2, 3])
      | .error e3 =>
        (.error ("Failed to extract text from PDF. Tried 3 different methods. The PDF may be image-based, encrypted, or corrupted. Last error: " ++ e3),
         [1, 2, 3])

/-! ### Embedding client (embeddings.ts, generateEmbeddings) -/

/-- Shape of the embedding field of a provider response: either directly an
array, or an object with an optional values array. -/
inductive GeminiEmbedding where
  | arr : List ℝ → GeminiEmbedding
  | obj : Option (List ℝ) → GeminiEmbedding

/-- Provider response for one embedContent call. -/
structure EmbedContentResponse where
  embedding : Option GeminiEmbedding

/-- The per-result extraction of generateEmbeddings: accept a direct array
or a nested values array, otherwise throw. -/
def extractEmbedding (r : EmbedContentResponse) : Except String (List ℝ) :=
  match r.embedding with
  | some (.arr v) => .ok v
  | some (.obj (some v)) => .ok v
  | some (.obj none) => .error "No embedding returned from Gemini"
  | none => .error "No embedding returned from Gemini"

/-- Promise.all over already-ordered results: the first rejection (in input
order, modelling the deterministic single-provider case) rejects the whole
batch; otherwise all resolutions are collected in order. -/
def promiseAll {α : Type} : List (Except String α) → Except String (List α)
  | [] => .ok []
  | .error e :: _ => .error e
  | .ok a :: rest =>
    match promiseAll rest with
    | .ok as => .ok (a :: as)
    | .error e => .error e

/-- generateEmbeddings: fan out one provider call per text, join them with
Promise.all, extract one vector per result (the first inextractable result
throws), and wrap any failure in the batch-level message. -/
def generateEmbeddings (provider : String → Except String EmbedContentResponse)
    (texts : List String) : Except String (List (List ℝ)) :=
  let inner : Except String (List (List ℝ)) :=
    match promiseAll (texts.map provider) with
    | .error e => .error e
    | .ok results => results.mapM extractEmbedding
  match inner with
  | .ok vs => .ok vs
  | .error e => .error ("Failed to generate embeddings: " ++ e)

/-! ### Retrieval-augmented answerer (app/api/chat/route.ts, POST) -/

/-- External model calls observable in a handler execution. -/
inductive ExtCall where
  | embedCall : ExtCall
  | completeCall : ExtCall
deriving DecidableEq, Repr

/-- Body of a chat response: either an error payload or a response payload
with optional cited sources. -/
inductive ChatBody where
  | errorBody : String → ChatBody
  | responseBody : String → Option (List (String × ℕ)) → ChatBody

/-- A chat HTTP reply: status code plus JSON body. -/
structure ChatReply where
  status : ℕ
  body : ChatBody

/-- Grounding context: each retrieved chunk labeled with its ordinal and
source file, joined by the delimiter. -/
def buildContext (docs : List DocumentChunk) : String :=
  String.intercalate "\n\n---\n\n"
    ((docs.enum).map (fun p =>
      "[Document " ++ toString (p.1 + 1) ++ " from " ++ p.2.metadata.fileName
        ++ "]:\n" ++ p.2.text))

/-- Grounding prompt of the chat route. -/
def buildPrompt (context message : String) : String :=
  "You are a helpful AI assistant that answers questions based on the provided business documents. Use only the information from the documents to answer questions. If the answer is not in the documents, say so politely.\n\nContext from documents:\n"
    ++ context ++ "\n\nUser Question: " ++ message
    ++ "\n\nAnswer based on the context above:"

/-- POST handler of the chat route.  Inputs: the authenticated user (none =
auth failure), the parsed message (none = missing or non-string), the table
and the getCount failure oracle, the embedding function, the RPC
availability and fallback-fetch oracle for search, and the completion model
(none = model returned nothing).  The second component records which
external model calls the execution performed. -/
noncomputable def chatPOST (authUser : Option String) (message : Option String)
    (table : List StoredRow) (countErr : Option String)
    (embedF : String → List ℝ) (rpcOk : Bool) (fetchErr : Option String)
    (completeF : String → Option String) : ChatReply × List ExtCall :=
  match authUser with
  | none => (⟨401, .errorBody "Unauthorized. Please sign in."⟩, [])
  | some uid =>
    match message with
    | none => (⟨400, .errorBody "Message is required"⟩, [])
    | some msg =>
      match getCount table uid countErr with
      | .error e => (⟨500, .errorBody e⟩, [])
      | .ok documentCount =>
        if documentCount = 0 then
          (⟨200, .responseBody "Please upload business documents first before asking questions." none⟩, [])
        else
          let queryEmbedding := embedF msg
          match search table queryEmbedding 5 uid rpcOk fetchErr with
          | .error e => (⟨500, .errorBody e⟩, [.embedCall])
          | .ok relevantDocs =>
            let context := buildContext relevantDocs
            let prompt := buildPrompt context msg
            let response := (completeF prompt).getD "Sorry, I could not generate a response."
            (⟨200, .responseBody response
              (some (relevantDocs.map (fun d => (d.metadata.fileName, d.metadata.chunkIndex))))⟩,
             [.embedCall, .completeCall])

/-! ### Chunker specification helpers -/

/-- A character at which the chunker prefers to break: the sentence
terminator or a newline. -/
def isBreakChar (c : Char) : Prop := c = '.' ∨ c = '
'

/-- Invariant carried along the chunker loop, relating the current cursor s
to the end pe of the previously pushed slice: the cursor never lies beyond
pe, it trails it by at most the overlap, pe stays inside the text, and every
break character strictly before pe sits in the first half of the slice that
would start at the cursor (which is exactly why the previous iteration did
not break there). -/
def SplitInv (text : List Char) (chunkSize overlap s pe : ℕ) : Prop :=
  s ≤ pe ∧ pe ≤ s + overlap ∧ pe ≤ text.length ∧
    ∀ (q : ℕ) (c : Char), s ≤ q → q < pe → text[q]? = some c → isBreakChar c →
      2 * ((q - s : ℕ) : ℤ) ≤ (chunkSize : ℤ)

/-! ## Helper lemmas: numerics -/

lemma normSq_nonneg (a : List ℝ) : 0 ≤ normSq a := by
  induction a with
  | nil => simp [normSq]
  | cons x xs ih =>
    simp only [normSq, List.map_cons, List.sum_cons]
    have := mul_self_nonneg x
    simp only [normSq] at ih
    linarith

lemma normSq_cons (x : ℝ) (xs : List ℝ) : normSq (x :: xs) = x * x + normSq xs := by
  simp [normSq]

lemma normSq_eq_zero_iff (a : List ℝ) : normSq a = 0 ↔ ∀ x ∈ a, x = 0 := by
  induction a with
  | nil => simp [normSq]
  | cons x xs ih =>
    rw [normSq_cons]
    constructor
    · intro h
      have hx : 0 ≤ x * x := mul_self_nonneg x
      have hxs : 0 ≤ normSq xs := normSq_nonneg xs
      have h1 : x * x = 0 := by linarith
      have h2 : normSq xs = 0 := by linarith
      intro y hy
      rcases List.mem_cons.1 hy with rfl | hy'
      · exact mul_self_eq_zero.1 h1
      · exact (ih.1 h2) y hy'
    · intro h
      have hx : x = 0 := h x (by simp)
      have hxs : normSq xs = 0 := ih.2 (fun y hy => h y (by simp [hy]))
      simp [hx, hxs]

lemma normSq_pos (a : List ℝ) (h : ∃ x ∈ a, x ≠ 0) : 0 < normSq a := by
  rcases h with ⟨x, hx, hx0⟩
  rcases lt_or_eq_of_le (normSq_nonneg a) with h' | h'
  · exact h'
  · exact absurd ((normSq_eq_zero_iff a).1 h'.symm x hx) hx0

lemma dotProduct_comm (a b : List ℝ) : dotProduct a b = dotProduct b a := by
  induction a generalizing b with
  | nil => cases b <;> simp [dotProduct]
  | cons x xs ih =>
    cases b with
    | nil => simp [dotProduct]
    | cons y ys =>
      simp only [dotProduct, List.zip_cons_cons, List.map_cons, List.sum_cons]
      rw [mul_comm]
      congr 1
      exact ih ys

lemma dotProduct_self (a : List ℝ) : dotProduct a a = normSq a := by
  induction a with
  | nil => simp [dotProduct, normSq]
  | cons x xs ih =>
    simp only [dotProduct, normSq, List.zip_cons_cons, List.map_cons, List.sum_cons] at *
    rw [ih]

lemma dotProduct_zero_left (a b : List ℝ) (h : ∀ x ∈ a, x = 0) :
    dotProduct a b = 0 := by
  induction a generalizing b with
  | nil => cases b <;> simp [dotProduct]
  | cons x xs ih =>
    cases b with
    | nil => simp [dotProduct]
    | cons y ys =>
      simp only [dotProduct, List.zip_cons_cons, List.map_cons, List.sum_cons]
      have hx : x = 0 := h x (by simp)
      have := ih ys (fun z hz => h z (by simp [hz]))
      simp only [dotProduct] at this
      simp [hx, this]

lemma dotProduct_zero_right (a b : List ℝ) (h : ∀ x ∈ b, x = 0) :
    dotProduct a b = 0 := by
  rw [dotProduct_comm]; exact dotProduct_zero_left b a h

lemma cosineSimilarity_eq_num (a b : List ℝ) (s1 s2 : ℝ)
    (hl : a.length = b.length) (hs1 : 0 ≤ s1) (hs2 : 0 ≤ s2)
    (hq1 : s1 * s1 = normSq a) (hq2 : s2 * s2 = normSq b) (hz : s1 * s2 ≠ 0) :
    cosineSimilarity a b = .num (dotProduct a b / (s1 * s2)) := by
  rw [cosineSimilarity, if_neg (by simp [hl]), ← hq1, ← hq2,
    Real.sqrt_mul_self hs1, Real.sqrt_mul_self hs2, jsDiv, if_neg hz]

lemma cosineSimilarity_nan_right (a b : List ℝ) (hl : a.length = b.length)
    (h : ∀ x ∈ b, x = 0) : cosineSimilarity a b = .nan := by
  have hb : normSq b = 0 := (normSq_eq_zero_iff b).2 h
  have hd : dotProduct a b = 0 := dotProduct_zero_right a b h
  rw [cosineSimilarity, if_neg (by simp [hl]), hd, hb, Real.sqrt_zero, mul_zero,
    jsDiv, if_pos rfl, if_pos rfl]

lemma cosineSimilarity_nan_left (a b : List ℝ) (hl : a.length = b.length)
    (h : ∀ x ∈ a, x = 0) : cosineSimilarity a b = .nan := by
  have ha : normSq a = 0 := (normSq_eq_zero_iff a).2 h
  have hd : dotProduct a b = 0 := dotProduct_zero_left a b h
  rw [cosineSimilarity, if_neg (by simp [hl]), hd, ha, Real.sqrt_zero, zero_mul,
    jsDiv, if_pos rfl, if_pos rfl]

lemma cosineSimilarity_num_or_nan (a b : List ℝ) :
    (∃ v : ℝ, cosineSimilarity a b = .num v) ∨ cosineSimilarity a b = .nan := by
  rw [cosineSimilarity]
  by_cases hl : a.length ≠ b.length
  · rw [if_pos hl]; exact .inl ⟨0, rfl⟩
  · rw [if_neg hl]
    rw [jsDiv]
    by_cases hz : Real.sqrt (normSq a) * Real.sqrt (normSq b) = 0
    · rw [if_pos hz]
      have hd : dotProduct a b = 0 := by
        rcases mul_eq_zero.1 hz with h | h
        · exact dotProduct_zero_left a b
            ((normSq_eq_zero_iff a).1 (le_antisymm (Real.sqrt_eq_zero'.1 h) (normSq_nonneg a)))
        · exact dotProduct_zero_right a b
            ((normSq_eq_zero_iff b).1 (le_antisymm (Real.sqrt_eq_zero'.1 h) (normSq_nonneg b)))
      rw [if_pos hd]
      exact .inr rfl
    · rw [if_neg hz]
      exact .inl ⟨_, rfl⟩

/-! ## C6 and C10: cosine similarity properties -/

/-- C6: cosineSimilarity is symmetric; on a non-zero vector paired with
itself it is exactly 1 (the real-number model of "approximately 1"); and on
vectors of different lengths it returns 0 rather than raising. -/
theorem C6_cosineSimilarity_props :
    (∀ a b : List ℝ, cosineSimilarity a b = cosineSimilarity b a) ∧
    (∀ a : List ℝ, (∃ x ∈ a, x ≠ 0) → cosineSimilarity a a = .num 1) ∧
    (∀ a b : List ℝ, a.length ≠ b.length → cosineSimilarity a b = .num 0) := by
  refine ⟨?_, ?_, ?_⟩
  · intro a b
    by_cases hl : a.length = b.length
    · rw [cosineSimilarity, cosineSimilarity, if_neg (by simp [hl]),
        if_neg (by simp [hl]), dotProduct_comm, mul_comm]
    · rw [cosineSimilarity, cosineSimilarity, if_pos (by simpa using hl),
        if_pos (by simp; exact fun h => hl h.symm)]
  · intro a ha
    have hpos : 0 < normSq a := normSq_pos a ha
    rw [cosineSimilarity, if_neg (by simp), dotProduct_self,
      Real.mul_self_sqrt (le_of_lt hpos), jsDiv, if_neg (ne_of_gt hpos)]
    rw [div_self (ne_of_gt hpos)]
  · intro a b hl
    rw [cosineSimilarity, if_pos hl]

/-- Witness for C6 at concrete inputs: the non-zero vector (3, 4) has
self-similarity exactly 1, and mismatched lengths give 0. -/
theorem C6_witness :
    cosineSimilarity [(3 : ℝ), 4] [3, 4] = .num 1 ∧
    cosineSimilarity [(1 : ℝ)] [1, 2] = .num 0 :=
  ⟨C6_cosineSimilarity_props.2.1 [3, 4] ⟨3, by simp, by norm_num⟩,
   C6_cosineSimilarity_props.2.2 [1] [1, 2] (by simp)⟩

/-- C10: when either argument is an all-zero vector of the same length as
the other, the denominator of the division is zero, the numerator is zero
too, and cosineSimilarity returns NaN, which is not a real number at all
(in particular not in the interval from -1 to 1). -/
theorem C10_zero_vector_nan :
    (∀ a b : List ℝ, a.length = b.length →
      ((∀ x ∈ a, x = 0) ∨ (∀ x ∈ b, x = 0)) → cosineSimilarity a b = .nan) ∧
    (∀ v : ℝ, JFloat.nan ≠ JFloat.num v) := by
  constructor
  · intro a b hl h
    rcases h with h | h
    · exact cosineSimilarity_nan_left a b hl h
    · exact cosineSimilarity_nan_right a b hl h
  · intro v h
    cases h

/-- Witness for C10: the zero vector of length 2 against (1, 2). -/
theorem C10_witness : cosineSimilarity [(0 : ℝ), 0] [1, 2] = .nan :=
  C10_zero_vector_nan.1 [0, 0] [1, 2] (by simp) (.inl (by simp))

/-! ## C7: PDF extraction fallback chain -/

/-- C7: processPDF attempts pdf-parse, then pdf2json, then pdfjs-dist, each
strategy only after the previous one raised (the attempt trace grows by one
per failure); a later success returns that strategy's document and drops the
earlier errors; when all three raise, the single aggregate error names the
last underlying cause and states that the PDF may be image-based, encrypted,
or corrupted. -/
theorem C7_processPDF_fallback :
    ∀ r1 r2 r3 : Except String ProcessedDocument,
      (∀ d, r1 = .ok d → processPDF r1 r2 r3 = (.ok d, [1])) ∧
      (∀ e1 d, r1 = .error e1 → r2 = .ok d →
        processPDF r1 r2 r3 = (.ok d, [1, 2])) ∧
      (∀ e1 e2 d, r1 = .error e1 → r2 = .error e2 → r3 = .ok d →
        processPDF r1 r2 r3 = (.ok d, [1, 2, 3])) ∧
      (∀ e1 e2 e3, r1 = .error e1 → r2 = .error e2 → r3 = .error e3 →
        processPDF r1 r2 r3 =
          (.error ("Failed to extract text from PDF. Tried 3 different methods. The PDF may be image-based, encrypted, or corrupted. Last error: " ++ e3),
           [1, 2, 3])) := by
  intro r1 r2 r3
  refine ⟨?_, ?_, ?_, ?_⟩
  · intro d h; subst h; rfl
  · intro e1 d h1 h2; subst h1; subst h2; rfl
  · intro e1 e2 d h1 h2 h3; subst h1; subst h2; subst h3; rfl
  · intro e1 e2 e3 h1 h2 h3; subst h1; subst h2; subst h3; rfl

/-- Witness for C7: strategies one and two fail on this input, strategy
three succeeds, and its text is returned with all three attempts traced. -/
theorem C7_witness :
    processPDF (.error "bad xref") (.error "pdf2json parsing timeout")
        (.ok ⟨"page text", "doc.pdf", "pdf"⟩)
      = (.ok ⟨"page text", "doc.pdf", "pdf"⟩, [1, 2, 3]) :=
  (C7_processPDF_fallback (.error "bad xref") (.error "pdf2json parsing timeout")
    (.ok ⟨"page text", "doc.pdf", "pdf"⟩)).2.2.1
    "bad xref" "pdf2json parsing timeout" ⟨"page text", "doc.pdf", "pdf"⟩ rfl rfl rfl

/-! ## C8: empty-corpus short-circuit in the chat route -/

/-- C8: for an authenticated user and a valid message, when getCount reports
0 documents the chat handler returns the fixed guidance message and the
recorded external calls are empty: neither the embedding model nor the
completion model runs on that path. -/
theorem C8_empty_corpus_short_circuit :
    ∀ (uid msg : String) (table : List StoredRow) (countErr : Option String)
      (embedF : String → List ℝ) (rpcOk : Bool) (fetchErr : Option String)
      (completeF : String → Option String),
      getCount table uid countErr = .ok 0 →
      chatPOST (some uid) (some msg) table countErr embedF rpcOk fetchErr completeF
        = (⟨200, .responseBody
            "Please upload business documents first before asking questions." none⟩,
           []) := by
  intro uid msg table countErr embedF rpcOk fetchErr completeF h
  rw [chatPOST, h]
  simp

/-- Witness for C8: a user with an empty table gets the guidance reply and
an empty external-call trace. -/
theorem C8_witness :
    getCount [] "user1" none = .ok 0 ∧
    chatPOST (some "user1") (some "what are your hours?") [] none
        (fun _ => []) true none (fun _ => none)
      = (⟨200, .responseBody
          "Please upload business documents first before asking questions." none⟩,
         []) :=
  ⟨rfl, C8_empty_corpus_short_circuit "user1" "what are your hours?" [] none
    (fun _ => []) true none (fun _ => none) rfl⟩

/-! ## C9: storage read failures are swallowed, not surfaced -/

/-- C9 counterexample: on a backend read failure (modelled by the failure
oracle reporting the message "boom"), getAllDocuments resolves normally with
an empty list, getCount resolves normally with 0, and the fallback candidate
fetch of search resolves normally with an empty result; none of them rejects,
so the failure is not surfaced to the caller as an error, contradicting the
claim. -/
theorem C9_counterexample :
    getAllDocuments [] "userA" (some "boom") = .ok [] ∧
    getCount [] "userA" (some "boom") = .ok 0 ∧
    searchWithDirectQuery [] [1] 5 "userA" (some "boom") = .ok [] ∧
    ∀ e : String, (Except.ok ([] : List DocumentChunk) : Except String _) ≠ .error e := by
  refine ⟨rfl, rfl, rfl, ?_⟩
  intro e h
  cases h

/-- C9 as amended: a storage read failure in getAllDocuments, getCount, or
the fallback candidate fetch of search is swallowed: the operation logs the
error and resolves normally with an empty list, zero, or an empty result
respectively, for every table, user and failure message. -/
theorem C9_read_failures_swallowed :
    ∀ (table : List StoredRow) (u msg : String) (q : List ℝ) (k : ℕ),
      getAllDocuments table u (some msg) = .ok [] ∧
      getCount table u (some msg) = .ok 0 ∧
      searchWithDirectQuery table q k u (some msg) = .ok [] := by
  intro table u msg q k
  exact ⟨rfl, rfl, rfl⟩

/-! ## C5: batch embedding generation -/

lemma promiseAll_map_ok {α β : Type} (provider : α → Except String β)
    (rOf : α → β) :
    ∀ xs : List α, (∀ x ∈ xs, provider x = .ok (rOf x)) →
      promiseAll (xs.map provider) = .ok (xs.map rOf) := by
  intro xs
  induction xs with
  | nil => intro _; rfl
  | cons x xs ih =>
    intro h
    have hx : provider x = .ok (rOf x) := h x (by simp)
    simp only [List.map_cons, promiseAll, hx, ih (fun y hy => h y (by simp [hy]))]

lemma promiseAll_map_error {α β : Type} (provider : α → Except String β)
    (pre suf : List α) (t : α) (e : String)
    (hpre : ∀ x ∈ pre, ∃ r, provider x = .ok r) (ht : provider t = .error e) :
    promiseAll ((pre ++ t :: suf).map provider) = .error e := by
  induction pre with
  | nil => simp only [List.nil_append, List.map_cons, ht, promiseAll]
  | cons x xs ih =>
    rcases hpre x (by simp) with ⟨r, hr⟩
    simp only [List.cons_append, List.map_cons, promiseAll, hr]
    rw [ih (fun y hy => hpre y (by simp [hy]))]

lemma mapM_extract_ok (rOf : String → EmbedContentResponse)
    (embOf : String → List ℝ) :
    ∀ texts : List String,
      (∀ t ∈ texts, extractEmbedding (rOf t) = .ok (embOf t)) →
      (texts.map rOf).mapM extractEmbedding = .ok (texts.map embOf) := by
  intro texts
  induction texts with
  | nil => intro _; rfl
  | cons t ts ih =>
    intro h
    have ht : extractEmbedding (rOf t) = .ok (embOf t) := h t (by simp)
    simp only [List.map_cons, List.mapM_cons, ht,
      ih (fun y hy => h y (by simp [hy]))]
    rfl

/-- C5 as amended: generateEmbeddings is order-preserving with exactly one
vector per input text when every provider call succeeds with an extractable
embedding; when the provider fails on one text (all texts before it
succeeding), the whole batch fails with the batch-level wrapper around the
underlying provider message — the failing text's position is not part of
the error. -/
theorem C5_generateEmbeddings_batch :
    ∀ (provider : String → Except String EmbedContentResponse)
      (rOf : String → EmbedContentResponse) (embOf : String → List ℝ)
      (texts : List String),
      ((∀ t ∈ texts, provider t = .ok (rOf t)) →
        (∀ t ∈ texts, extractEmbedding (rOf t) = .ok (embOf t)) →
        generateEmbeddings provider texts = .ok (texts.map embOf)) ∧
      (∀ (pre suf : List String) (t : String) (e : String),
        texts = pre ++ t :: suf →
        (∀ x ∈ pre, ∃ r, provider x = .ok r) →
        provider t = .error e →
        generateEmbeddings provider texts =
          .error ("Failed to generate embeddings: " ++ e)) := by
  intro provider rOf embOf texts
  constructor
  · intro hp hx
    rw [generateEmbeddings]
    simp only [promiseAll_map_ok provider rOf texts hp]
    rw [mapM_extract_ok rOf embOf texts hx]
  · intro pre suf t e htexts hpre ht
    subst htexts
    rw [generateEmbeddings]
    simp only [promiseAll_map_error provider pre suf t e hpre ht]

/-- Witness for C5: a two-text batch with both provider calls succeeding
produces the two vectors in input order, and a batch whose second text makes
the provider fail yields the wrapped batch error. -/
theorem C5_witness :
    generateEmbeddings (fun _ => .ok ⟨some (.arr [1, 2])⟩) ["a", "b"]
      = .ok [[1, 2], [1, 2]] ∧
    generateEmbeddings
        (fun t => if t = "b" then .error "quota" else .ok ⟨some (.arr [1])⟩)
        ["a", "b"]
      = .error ("Failed to generate embeddings: " ++ "quota") :=
  ⟨(C5_generateEmbeddings_batch (fun _ => .ok ⟨some (.arr [1, 2])⟩)
      (fun _ => ⟨some (.arr [1, 2])⟩) (fun _ => [1, 2]) ["a", "b"]).1
      (fun t _ => rfl) (fun t _ => rfl),
   (C5_generateEmbeddings_batch
      (fun t => if t = "b" then .error "quota" else .ok ⟨some (.arr [1])⟩)
      (fun _ => ⟨some (.arr [1])⟩) (fun _ => [1]) ["a", "b"]).2
      ["a"] [] "b" "quota" rfl
      (fun x hx => ⟨⟨some (.arr [1])⟩, by
        rcases List.mem_singleton.1 hx with rfl
        rfl⟩)
      rfl⟩

/-- C5 counterexample: two batches whose failing texts sit at different
positions (position 1 of a two-text batch, position 0 of a one-text batch)
produce the identical error value, so the batch error cannot name the
position of the failing text. -/
theorem C5_counterexample :
    generateEmbeddings
        (fun t => if t = "a" then .ok ⟨some (.arr [1])⟩ else .error "boom")
        ["a", "b"]
      = .error "Failed to generate embeddings: boom" ∧
    generateEmbeddings (fun _ => .error "boom") ["x"]
      = .error "Failed to generate embeddings: boom" := by
  exact ⟨rfl, rfl⟩

/-! ## Helper lemmas: chunker -/

lemma jsLastIndexOf_ge_neg_one (l : List Char) (c : Char) :
    -1 ≤ jsLastIndexOf l c := by
  induction l with
  | nil => simp [jsLastIndexOf]
  | cons x xs ih =>
    simp only [jsLastIndexOf]
    split_ifs <;> omega

lemma jsLastIndexOf_lt_length (l : List Char) (c : Char) :
    jsLastIndexOf l c < l.length := by
  induction l with
  | nil => simp [jsLastIndexOf]
  | cons x xs ih =>
    simp only [jsLastIndexOf, List.length_cons]
    split_ifs <;> push_cast <;> omega

lemma le_jsLastIndexOf (l : List Char) (c : Char) (i : ℕ) (h : l[i]? = some c) :
    (i : ℤ) ≤ jsLastIndexOf l c := by
  induction l generalizing i with
  | nil => simp at h
  | cons x xs ih =>
    cases i with
    | zero =>
      simp only [List.getElem?_cons_zero, Option.some.injEq] at h
      subst h
      simp only [jsLastIndexOf]
      have := jsLastIndexOf_ge_neg_one xs x
      split_ifs with h1 h2 <;> simp_all
      omega
    | succ i =>
      simp only [List.getElem?_cons_succ] at h
      have := ih i h
      simp only [jsLastIndexOf]
      have h0 : (0 : ℤ) ≤ jsLastIndexOf xs c := le_trans (by omega) this
      rw [if_pos h0]
      push_cast
      omega

lemma jsLastIndexOf_getElem (l : List Char) (c : Char)
    (h : 0 ≤ jsLastIndexOf l c) : l[(jsLastIndexOf l c).toNat]? = some c := by
  induction l with
  | nil => simp [jsLastIndexOf] at h
  | cons x xs ih =>
    simp only [jsLastIndexOf] at h ⊢
    by_cases h1 : 0 ≤ jsLastIndexOf xs c
    · rw [if_pos h1] at h ⊢
      have ht : (jsLastIndexOf xs c + 1).toNat = (jsLastIndexOf xs c).toNat + 1 := by
        omega
      rw [ht, List.getElem?_cons_succ]
      exact ih h1
    · rw [if_neg h1] at h ⊢
      by_cases h2 : x == c
      · rw [if_pos h2]
        simp only [Int.toNat_zero, List.getElem?_cons_zero, Option.some.injEq]
        exact (beq_iff_eq.1 h2)
      · rw [if_neg h2] at h
        omega

lemma jsSlice_length (l : List Char) (s e : ℕ) (hs : s ≤ e) (he : e ≤ l.length) :
    (jsSlice l s e).length = e - s := by
  simp only [jsSlice, List.length_take, List.length_drop]
  omega

lemma jsSlice_getElem (l : List Char) (s e i : ℕ) (h : i < e - s) :
    (jsSlice l s e)[i]? = l[s + i]? := by
  simp only [jsSlice, List.getElem?_take, if_pos h, List.getElem?_drop]

lemma splitIter_eq_break (text : List Char) (cs ov s : ℕ)
    (h1 : min (s + cs) text.length < text.length)
    (h2 : 2 * max (jsLastIndexOf (jsSlice text s (min (s + cs) text.length)) '.')
            (jsLastIndexOf (jsSlice text s (min (s + cs) text.length)) '\n')
          > (cs : ℤ)) :
    splitIter text cs ov s =
      (s + (max (jsLastIndexOf (jsSlice text s (min (s + cs) text.length)) '.')
            (jsLastIndexOf (jsSlice text s (min (s + cs) text.length)) '\n')).toNat + 1,
       s + (max (jsLastIndexOf (jsSlice text s (min (s + cs) text.length)) '.')
            (jsLastIndexOf (jsSlice text s (min (s + cs) text.length)) '\n')).toNat + 1) := by
  simp only [splitIter]
  rw [if_pos h1, if_pos h2]

lemma splitIter_eq_overlap (text : List Char) (cs ov s : ℕ)
    (h1 : min (s + cs) text.length < text.length)
    (h2 : ¬ (2 * max (jsLastIndexOf (jsSlice text s (min (s + cs) text.length)) '.')
            (jsLastIndexOf (jsSlice text s (min (s + cs) text.length)) '\n')
          > (cs : ℤ))) :
    splitIter text cs ov s =
      (min (s + cs) text.length, min (s + cs) text.length - ov) := by
  simp only [splitIter]
  rw [if_pos h1, if_neg h2]

lemma splitIter_eq_final (text : List Char) (cs ov s : ℕ)
    (h1 : ¬ (min (s + cs) text.length < text.length)) :
    splitIter text cs ov s = (text.length, text.length) := by
  simp only [splitIter]
  rw [if_neg h1]
  have : min (s + cs) text.length = text.length := by omega
  rw [this]

lemma splitIter_cases (text : List Char) (cs ov s : ℕ) (hs : s < text.length) :
    (∃ j : ℕ, 2 * (j : ℤ) > (cs : ℤ) ∧ s + j < min (s + cs) text.length ∧
       (∃ c, text[s + j]? = some c ∧ isBreakChar c) ∧
       splitIter text cs ov s = (s + j + 1, s + j + 1) ∧
       min (s + cs) text.length < text.length) ∨
    ((∀ (q : ℕ) (c : Char), s ≤ q → q < min (s + cs) text.length →
        text[q]? = some c → isBreakChar c →
          2 * ((q - s : ℕ) : ℤ) ≤ (cs : ℤ)) ∧
       splitIter text cs ov s =
         (min (s + cs) text.length, min (s + cs) text.length - ov) ∧
       min (s + cs) text.length < text.length) ∨
    (splitIter text cs ov s = (text.length, text.length) ∧
       min (s + cs) text.length = text.length) := by
  have hse : s ≤ min (s + cs) text.length := by omega
  have hel : min (s + cs) text.length ≤ text.length := by omega
  have hlen : (jsSlice text s (min (s + cs) text.length)).length
      = min (s + cs) text.length - s := jsSlice_length text s _ hse hel
  by_cases hcase : min (s + cs) text.length < text.length
  · by_cases hbr : 2 * max (jsLastIndexOf (jsSlice text s (min (s + cs) text.length)) '.')
        (jsLastIndexOf (jsSlice text s (min (s + cs) text.length)) '\n') > (cs : ℤ)
    · left
      have hlp := jsLastIndexOf_lt_length (jsSlice text s (min (s + cs) text.length)) '.'
      have hln := jsLastIndexOf_lt_length (jsSlice text s (min (s + cs) text.length)) '\n'
      have hbp0 : 0 ≤ max (jsLastIndexOf (jsSlice text s (min (s + cs) text.length)) '.')
          (jsLastIndexOf (jsSlice text s (min (s + cs) text.length)) '\n') := by omega
      refine ⟨(max (jsLastIndexOf (jsSlice text s (min (s + cs) text.length)) '.')
          (jsLastIndexOf (jsSlice text s (min (s + cs) text.length)) '\n')).toNat,
        by omega, by rw [hlen] at hlp hln; omega, ?_, splitIter_eq_break text cs ov s hcase hbr, hcase⟩
      rcases max_cases (jsLastIndexOf (jsSlice text s (min (s + cs) text.length)) '.')
          (jsLastIndexOf (jsSlice text s (min (s + cs) text.length)) '\n') with ⟨hmx, _⟩ | ⟨hmx, _⟩
      · refine ⟨'.', ?_, .inl rfl⟩
        rw [hmx] at hbp0 ⊢
        have := jsLastIndexOf_getElem (jsSlice text s (min (s + cs) text.length)) '.' hbp0
        rw [jsSlice_getElem text s (min (s + cs) text.length) _ (by rw [hlen] at hlp; omega)] at this
        exact this
      · refine ⟨'\n', ?_, .inr rfl⟩
        rw [hmx] at hbp0 ⊢
        have := jsLastIndexOf_getElem (jsSlice text s (min (s + cs) text.length)) '\n' hbp0
        rw [jsSlice_getElem text s (min (s + cs) text.length) _ (by rw [hlen] at hln; omega)] at this
        exact this
    · right; left
      refine ⟨?_, splitIter_eq_overlap text cs ov s hcase hbr, hcase⟩
      intro q c hq1 hq2 hqc hbrk
      have hrel : q - s < min (s + cs) text.length - s := by omega
      have hget : (jsSlice text s (min (s + cs) text.length))[q - s]? = some c := by
        rw [jsSlice_getElem text s (min (s + cs) text.length) _ hrel]
        have : s + (q - s) = q := by omega
        rw [this]; exact hqc
      rcases hbrk with rfl | rfl
      · have := le_jsLastIndexOf (jsSlice text s (min (s + cs) text.length)) '.' (q - s) hget
        omega
      · have := le_jsLastIndexOf (jsSlice text s (min (s + cs) text.length)) '\n' (q - s) hget
        omega
  · right; right
    exact ⟨splitIter_eq_final text cs ov s hcase, by omega⟩

lemma splitIter_step (text : List Char) (cs ov s pe : ℕ) (hov : 0 < ov)
    (hcs : ov < cs) (hs : s < text.length)
    (hinv : SplitInv text cs ov s pe) :
    pe ≤ (splitIter text cs ov s).1 ∧
    s < (splitIter text cs ov s).2 ∧
    (splitIter text cs ov s).2 ≤ (splitIter text cs ov s).1 ∧
    (splitIter text cs ov s).1 ≤ text.length ∧
    SplitInv text cs ov (splitIter text cs ov s).2 (splitIter text cs ov s).1 := by
  obtain ⟨hinv1, hinv2, hinv3, hinv4⟩ := hinv
  rcases splitIter_cases text cs ov s hs with
    ⟨j, hj2, hjlt, ⟨c, hjc, hjbrk⟩, heq, hee⟩ | ⟨hno, heq, hee⟩ | ⟨heq, hee⟩
  · -- break branch: pushes text[s .. s+j+1), restarts there
    have hpe : pe ≤ s + j := by
      by_contra hcon
      have := hinv4 (s + j) c (by omega) (by omega) hjc hjbrk
      have hss : s + j - s = j := by omega
      rw [hss] at this
      omega
    rw [heq]
    refine ⟨by omega, by omega, le_refl _, by omega, ?_⟩
    exact ⟨le_refl _, by omega, by omega, fun q c _ h2 _ _ => by omega⟩
  · -- overlap branch: pushes the full slice, backs up by the overlap
    have hemin : min (s + cs) text.length = s + cs := by omega
    rw [heq, hemin]
    refine ⟨by omega, by omega, by omega, by omega, ?_⟩
    refine ⟨by omega, by omega, by omega, ?_⟩
    intro q c hq1 hq2 hqc hbrk
    have := hno q c (by omega) (by omega) hqc hbrk
    omega
  · -- final slice: ends exactly at the text length
    rw [heq]
    exact ⟨hinv3, hs, le_refl _, le_refl _,
      ⟨le_refl _, by omega, le_refl _, fun q c _ h2 _ _ => by omega⟩⟩

lemma splitIter_progress (text : List Char) (cs ov s : ℕ) (_hov : 0 < ov)
    (hcs : ov < cs) (hs : s < text.length) :
    s < (splitIter text cs ov s).2 ∧
    ((∃ bp : ℕ, 2 * (bp : ℤ) > (cs : ℤ) ∧
        (splitIter text cs ov s).2 = s + bp + 1) ∨
     (splitIter text cs ov s).2 = s + (cs - ov) ∨
     (splitIter text cs ov s).2 = text.length) := by
  rcases splitIter_cases text cs ov s hs with
    ⟨j, hj2, hjlt, _, heq, hee⟩ | ⟨hno, heq, hee⟩ | ⟨heq, hee⟩
  · rw [heq]
    exact ⟨by omega, .inl ⟨j, hj2, rfl⟩⟩
  · have hemin : min (s + cs) text.length = s + cs := by omega
    rw [heq, hemin]
    exact ⟨by omega, .inr (.inl (by omega))⟩
  · rw [heq]
    exact ⟨hs, .inr (.inr rfl)⟩

lemma overlapJoin_splitIntervalsGo (text : List Char) (cs ov : ℕ)
    (hov : 0 < ov) (hcs : ov < cs) :
    ∀ (fuel s pe : ℕ), SplitInv text cs ov s pe → text.length - s < fuel →
      overlapJoin text pe (splitIntervalsGo text cs ov fuel s) = text.drop pe := by
  intro fuel
  induction fuel with
  | zero => intro s pe _ hf; omega
  | succ fuel ih =>
    intro s pe hinv hf
    by_cases hs : s < text.length
    · obtain ⟨h1, h2, h3, h4, hinv'⟩ := splitIter_step text cs ov s pe hov hcs hs hinv
      simp only [splitIntervalsGo, if_pos hs, overlapJoin]
      rw [max_eq_right hinv.1]
      rw [ih (splitIter text cs ov s).2 (splitIter text cs ov s).1 hinv' (by omega)]
      show jsSlice text pe (splitIter text cs ov s).1
          ++ text.drop (splitIter text cs ov s).1 = text.drop pe
      rw [jsSlice]
      have hd : text.drop (splitIter text cs ov s).1
          = List.drop ((splitIter text cs ov s).1 - pe) (List.drop pe text) := by
        rw [List.drop_drop]
        congr 1
        omega
      rw [hd, List.take_append_drop]
    · simp only [splitIntervalsGo, if_neg hs, overlapJoin]
      have h1 := hinv.1
      have : text.length ≤ pe := by omega
      rw [List.drop_eq_nil_of_le this]

lemma splitGo_eq_splitIntervalsGo (text : List Char) (cs ov : ℕ) :
    ∀ (fuel s : ℕ) (acc : List (List Char)),
      splitGo text cs ov fuel s acc =
        acc ++ ((splitIntervalsGo text cs ov fuel s).map
          (fun p => jsTrim (jsSlice text p.1 p.2))).filter
          (fun c => decide (0 < c.length)) := by
  intro fuel
  induction fuel with
  | zero => intro s acc; simp [splitGo, splitIntervalsGo]
  | succ fuel ih =>
    intro s acc
    by_cases hs : s < text.length
    · simp only [splitGo, splitIntervalsGo, if_pos hs]
      rw [ih]
      simp only [List.map_cons, List.filter_cons]
      by_cases ht : 0 < (jsTrim (jsSlice text s (splitIter text cs ov s).1)).length
      · rw [if_pos ht, if_pos (by simpa using ht)]
        simp
      · rw [if_neg ht, if_neg (by simpa using ht)]
    · simp [splitGo, splitIntervalsGo, if_neg hs]

lemma splitGo_fuel_irrel (text : List Char) (cs ov : ℕ) (hov : 0 < ov)
    (hcs : ov < cs) :
    ∀ (n f1 f2 s : ℕ) (acc : List (List Char)), text.length - s ≤ n →
      text.length - s < f1 → text.length - s < f2 →
      splitGo text cs ov f1 s acc = splitGo text cs ov f2 s acc := by
  intro n
  induction n with
  | zero =>
    intro f1 f2 s acc h h1 h2
    obtain ⟨g1, rfl⟩ : ∃ g, f1 = g + 1 := ⟨f1 - 1, by omega⟩
    obtain ⟨g2, rfl⟩ : ∃ g, f2 = g + 1 := ⟨f2 - 1, by omega⟩
    have hs : ¬ s < text.length := by omega
    simp [splitGo, if_neg hs]
  | succ n ih =>
    intro f1 f2 s acc h h1 h2
    by_cases hs : s < text.length
    · obtain ⟨g1, rfl⟩ : ∃ g, f1 = g + 1 := ⟨f1 - 1, by omega⟩
      obtain ⟨g2, rfl⟩ : ∃ g, f2 = g + 1 := ⟨f2 - 1, by omega⟩
      simp only [splitGo, if_pos hs]
      have hp := (splitIter_progress text cs ov s hov hcs hs).1
      exact ih g1 g2 (splitIter text cs ov s).2 _ (by omega) (by omega) (by omega)
    · obtain ⟨g1, rfl⟩ : ∃ g, f1 = g + 1 := ⟨f1 - 1, by omega⟩
      obtain ⟨g2, rfl⟩ : ∃ g, f2 = g + 1 := ⟨f2 - 1, by omega⟩
      simp [splitGo, if_neg hs]

/-! ## C3 and C4: chunker coverage and termination -/

/-- C3: for 0 < overlap < chunkSize, the chunker covers the input exactly:
the untrimmed slices it walks through, concatenated with every overlapping
prefix removed, reconstruct the input text character for character; and the
chunks the function actually returns are exactly those slices trimmed of
boundary whitespace, with all-whitespace slices dropped.  So no interior
non-whitespace character is lost or duplicated beyond the declared
overlap, and the output differs from exact coverage only by whitespace
trimming at chunk boundaries. -/
theorem C3_chunk_coverage :
    ∀ (text : List Char) (chunkSize overlap : ℕ),
      0 < overlap → overlap < chunkSize →
      overlapJoin text 0 (splitIntervals text chunkSize overlap) = text ∧
      splitTextIntoChunks text chunkSize overlap =
        ((splitIntervals text chunkSize overlap).map
          (fun p => jsTrim (jsSlice text p.1 p.2))).filter
          (fun c => decide (0 < c.length)) := by
  intro text cs ov hov hcs
  constructor
  · have h0 : SplitInv text cs ov 0 0 :=
      ⟨le_refl 0, by omega, by omega, fun q c _ h2 _ _ => by omega⟩
    have := overlapJoin_splitIntervalsGo text cs ov hov hcs
      (text.length + 1) 0 0 h0 (by omega)
    rw [splitIntervals]
    rw [this]
    rfl
  · rw [splitTextIntoChunks, splitIntervals,
      splitGo_eq_splitIntervalsGo text cs ov (text.length + 1) 0 []]
    rfl

/-- Witness for C3 on the text "ab.cde" with chunkSize 4 and overlap 1: the
loop produces the slice intervals, their overlap-removed concatenation gives
back the text, and the returned chunks are the trimmed slices. -/
theorem C3_witness :
    0 < 1 ∧ 1 < 4 ∧
    (overlapJoin "ab.cde".toList 0 (splitIntervals "ab.cde".toList 4 1)
        = "ab.cde".toList ∧
      splitTextIntoChunks "ab.cde".toList 4 1 =
        ((splitIntervals "ab.cde".toList 4 1).map
          (fun p => jsTrim (jsSlice "ab.cde".toList p.1 p.2))).filter
          (fun c => decide (0 < c.length))) :=
  ⟨by decide, by decide, C3_chunk_coverage "ab.cde".toList 4 1 (by decide) (by decide)⟩

/-- C4: for 0 < overlap < chunkSize the chunker loop makes strict forward
progress at every iteration — by breakPoint + 1 (with 2 * breakPoint >
chunkSize, i.e. breakPoint beyond the midpoint) on the boundary branch, by
chunkSize - overlap on the overlap branch, and to the end of the text on
the final slice — and therefore terminates: the result of splitGo is
unchanged by any additional fuel beyond text.length + 1 iterations. -/
theorem C4_chunker_termination :
    ∀ (text : List Char) (chunkSize overlap : ℕ),
      0 < overlap → overlap < chunkSize →
      (∀ s, s < text.length →
        s < (splitIter text chunkSize overlap s).2 ∧
        ((∃ bp : ℕ, 2 * (bp : ℤ) > (chunkSize : ℤ) ∧
            (splitIter text chunkSize overlap s).2 = s + bp + 1) ∨
         (splitIter text chunkSize overlap s).2 = s + (chunkSize - overlap) ∨
         (splitIter text chunkSize overlap s).2 = text.length)) ∧
      (∀ (extra : ℕ) (acc : List (List Char)),
        splitGo text chunkSize overlap (text.length + 1 + extra) 0 acc
          = splitGo text chunkSize overlap (text.length + 1) 0 acc) := by
  intro text cs ov hov hcs
  constructor
  · intro s hs
    exact splitIter_progress text cs ov s hov hcs hs
  · intro extra acc
    exact splitGo_fuel_irrel text cs ov hov hcs text.length
      (text.length + 1 + extra) (text.length + 1) 0 acc (by omega) (by omega) (by omega)

/-- Witness for C4 on the text "ab.cde" with chunkSize 4 and overlap 1: the
first iteration advances the cursor from 0 to 3, and extra fuel does not
change the output. -/
theorem C4_witness :
    0 < 1 ∧ 1 < 4 ∧ 0 < "ab.cde".toList.length ∧
    (0 < (splitIter "ab.cde".toList 4 1 0).2 ∧
      ((∃ bp : ℕ, 2 * (bp : ℤ) > (4 : ℤ) ∧
          (splitIter "ab.cde".toList 4 1 0).2 = 0 + bp + 1) ∨
       (splitIter "ab.cde".toList 4 1 0).2 = 0 + (4 - 1) ∨
       (splitIter "ab.cde".toList 4 1 0).2 = "ab.cde".toList.length)) ∧
    splitGo "ab.cde".toList 4 1 ("ab.cde".toList.length + 1 + 7) 0 []
      = splitGo "ab.cde".toList 4 1 ("ab.cde".toList.length + 1) 0 [] :=
  ⟨by decide, by decide, by decide,
   (C4_chunker_termination "ab.cde".toList 4 1 (by decide) (by decide)).1 0 (by decide),
   (C4_chunker_termination "ab.cde".toList 4 1 (by decide) (by decide)).2 7 []⟩

/-! ## Helper lemmas: sorting with the JavaScript comparator -/

lemma pairwise_orderedInsert_localized {α : Type} (r : α → α → Prop)
    [DecidableRel r] (P : α → Prop)
    (htot : ∀ a b, P a → P b → r a b ∨ r b a)
    (htr : ∀ a b c, P a → P b → P c → r a b → r b c → r a c) :
    ∀ (l : List α) (x : α), P x → (∀ y ∈ l, P y) → l.Pairwise r →
      (List.orderedInsert r x l).Pairwise r := by
  intro l
  induction l with
  | nil => intro x _ _ _; simp [List.orderedInsert]
  | cons y l ih =>
    intro x hx hl hsort
    rw [List.orderedInsert]
    rcases List.pairwise_cons.1 hsort with ⟨hy, hsort'⟩
    by_cases hxy : r x y
    · rw [if_pos hxy]
      refine List.pairwise_cons.2 ⟨?_, hsort⟩
      intro z hz
      rcases List.mem_cons.1 hz with rfl | hz'
      · exact hxy
      · exact htr x y z hx (hl y (by simp)) (hl z (by simp [hz'])) hxy (hy z hz')
    · rw [if_neg hxy]
      refine List.pairwise_cons.2 ⟨?_, ?_⟩
      · intro z hz
        rcases (List.mem_orderedInsert r).1 hz with rfl | hz'
        · rcases htot z y hx (hl y (by simp)) with h | h
          · exact absurd h hxy
          · exact h
        · exact hy z hz'
      · exact ih x hx (fun z hz => hl z (by simp [hz])) hsort'

lemma pairwise_insertionSort_localized {α : Type} (r : α → α → Prop)
    [DecidableRel r] (P : α → Prop)
    (htot : ∀ a b, P a → P b → r a b ∨ r b a)
    (htr : ∀ a b c, P a → P b → P c → r a b → r b c → r a c) :
    ∀ l : List α, (∀ x ∈ l, P x) → (List.insertionSort r l).Pairwise r := by
  intro l
  induction l with
  | nil => intro _; simp [List.insertionSort]
  | cons x l ih =>
    intro hl
    rw [List.insertionSort]
    refine pairwise_orderedInsert_localized r P htot htr _ x (hl x (by simp)) ?_
      (ih (fun y hy => hl y (by simp [hy])))
    intro y hy
    exact hl y (by simp [(List.perm_insertionSort r l).mem_iff.1 hy])

lemma simRowLe_total_on_num (a b : StoredRow × JFloat)
    (ha : ∃ v, a.2 = .num v) (hb : ∃ v, b.2 = .num v) :
    simRowLe a b ∨ simRowLe b a := by
  rcases ha with ⟨va, hva⟩
  rcases hb with ⟨vb, hvb⟩
  simp only [simRowLe, hva, hvb, jfSub, sortKeyNonPos]
  rcases le_total vb va with h | h
  · left; linarith
  · right; linarith

lemma simRowLe_trans_on_num (a b c : StoredRow × JFloat)
    (ha : ∃ v, a.2 = .num v) (hb : ∃ v, b.2 = .num v) (hc : ∃ v, c.2 = .num v)
    (h1 : simRowLe a b) (h2 : simRowLe b c) : simRowLe a c := by
  rcases ha with ⟨va, hva⟩
  rcases hb with ⟨vb, hvb⟩
  rcases hc with ⟨vc, hvc⟩
  simp only [simRowLe, hva, hvb, hvc, jfSub, sortKeyNonPos] at *
  linarith

lemma simRowLe_num_ge (a b : StoredRow × JFloat) (va vb : ℝ)
    (hva : a.2 = .num va) (hvb : b.2 = .num vb) (h : simRowLe a b) : vb ≤ va := by
  simp only [simRowLe, hva, hvb, jfSub, sortKeyNonPos] at h
  linarith

/-! ## Helper lemmas: search contract -/

lemma rowToChunk_embedding (r : StoredRow) : (rowToChunk r).embedding = r.embedding :=
  rfl

lemma rowToChunk_id (r : StoredRow) : (rowToChunk r).id = r.id := rfl

lemma mem_candidates_fact (table : List StoredRow) (q : List ℝ) (u : String)
    (p : StoredRow × JFloat)
    (hp : p ∈ ((table.filter (fun r => r.user_id == u)).take 500).map
        (fun r => (r, cosineSimilarity q r.embedding))) :
    p.1 ∈ table ∧ p.1.user_id = u ∧ p.2 = cosineSimilarity q p.1.embedding := by
  rcases List.mem_map.1 hp with ⟨r, hr, rfl⟩
  have hr' : r ∈ table.filter (fun r => r.user_id == u) :=
    List.take_subset 500 _ hr
  rcases List.mem_filter.1 hr' with ⟨hrt, hru⟩
  exact ⟨hrt, beq_iff_eq.1 hru, rfl⟩

open Classical in
lemma mem_hits_fact (table : List StoredRow) (q : List ℝ) (threshold : ℝ)
    (p : StoredRow × JFloat)
    (hp : p ∈ (table.map (fun r => (r, cosineSimilarity q r.embedding))).filter
        (fun p => decide (∃ v : ℝ, p.2 = .num v ∧ threshold < v))) :
    p.1 ∈ table ∧ p.2 = cosineSimilarity q p.1.embedding ∧
      ∃ v : ℝ, p.2 = .num v ∧ threshold < v := by
  rcases List.mem_filter.1 hp with ⟨hpm, hpd⟩
  rcases List.mem_map.1 hpm with ⟨r, hr, rfl⟩
  exact ⟨hr, rfl, of_decide_eq_true hpd⟩

lemma simGtHalf_of_num (x : JFloat) (v : ℝ) (hx : x = .num v)
    (hv : (1 : ℝ) / 2 < v) : simGtHalf x := by
  rw [hx]; exact hv

lemma searchWithDirectQuery_contract (table : List StoredRow) (q : List ℝ)
    (topK : ℕ) (u : String) (fe : Option String) (l : List DocumentChunk)
    (h : searchWithDirectQuery table q topK u fe = .ok l) :
    l.length ≤ topK ∧
    (∀ c ∈ l, ∃ r ∈ table, r.user_id = u ∧ rowToChunk r = c) ∧
    (∀ c ∈ l, simGtHalf (cosineSimilarity q c.embedding)) ∧
    ((∀ r ∈ table, r.user_id = u → cosineSimilarity q r.embedding ≠ .nan) →
      l.Chain' (fun c₁ c₂ => jfGe (cosineSimilarity q c₁.embedding)
        (cosineSimilarity q c₂.embedding))) := by
  cases fe with
  | some msg =>
    have hl : l = [] := by
      rw [searchWithDirectQuery] at h
      exact (Except.ok.inj h).symm
    subst hl
    exact ⟨by simp, by simp, by simp, fun _ => List.chain'_nil⟩
  | none =>
    rw [searchWithDirectQuery] at h
    have hl := (Except.ok.inj h).symm
    subst hl
    set cands := ((table.filter (fun r => r.user_id == u)).take 500).map
      (fun r => (r, cosineSimilarity q r.embedding)) with hcands
    set sorted := List.insertionSort simRowLe cands with hsorted
    have hmem : ∀ p : StoredRow × JFloat,
        p ∈ (sorted.take topK).filter (fun p => decide (simGtHalf p.2)) →
        p ∈ cands := by
      intro p hp
      have h1 := List.mem_of_mem_filter hp
      have h2 := List.take_subset topK sorted h1
      exact ((List.perm_insertionSort simRowLe cands).mem_iff).1 h2
    refine ⟨?_, ?_, ?_, ?_⟩
    · rw [List.length_map]
      refine le_trans (List.length_filter_le _ _) ?_
      rw [List.length_take]
      exact min_le_left _ _
    · intro c hc
      rcases List.mem_map.1 hc with ⟨p, hp, rfl⟩
      rcases mem_candidates_fact table q u p (hmem p hp) with ⟨h1, h2, _⟩
      exact ⟨p.1, h1, h2, rfl⟩
    · intro c hc
      rcases List.mem_map.1 hc with ⟨p, hp, rfl⟩
      rcases mem_candidates_fact table q u p (hmem p hp) with ⟨_, _, h3⟩
      rcases List.mem_filter.1 hp with ⟨_, hdec⟩
      have := of_decide_eq_true hdec
      rw [rowToChunk_embedding, ← h3]
      exact this
    · intro hnan
      have hP : ∀ p ∈ cands, ∃ v : ℝ, p.2 = .num v := by
        intro p hp
        rcases mem_candidates_fact table q u p hp with ⟨h1, h2, h3⟩
        rcases cosineSimilarity_num_or_nan q p.1.embedding with ⟨v, hv⟩ | hv
        · exact ⟨v, by rw [h3, hv]⟩
        · exact absurd hv (hnan p.1 h1 h2)
      have hpw : sorted.Pairwise simRowLe :=
        pairwise_insertionSort_localized simRowLe _ simRowLe_total_on_num
          simRowLe_trans_on_num cands hP
      have hpw2 : ((sorted.take topK).filter
          (fun p => decide (simGtHalf p.2))).Pairwise simRowLe :=
        List.Pairwise.sublist (List.filter_sublist _)
          (List.Pairwise.sublist (List.take_sublist _ _) hpw)
      apply List.Pairwise.chain'
      rw [List.pairwise_map]
      refine List.Pairwise.imp_of_mem ?_ hpw2
      intro p p' hp hp' hle
      rcases mem_candidates_fact table q u p (hmem p hp) with ⟨_, _, h3⟩
      rcases mem_candidates_fact table q u p' (hmem p' hp') with ⟨_, _, h3'⟩
      rcases hP p (hmem p hp) with ⟨v, hv⟩
      rcases hP p' (hmem p' hp') with ⟨v', hv'⟩
      have hge := simRowLe_num_ge p p' v v' hv hv' hle
      rw [rowToChunk_embedding, rowToChunk_embedding, ← h3, ← h3', hv, hv']
      exact hge

open Classical in
lemma search_rpc_contract (table : List StoredRow) (q : List ℝ)
    (topK : ℕ) (u : String) (l : List DocumentChunk)
    (h : ((match_documents table q ((1 : ℝ)/2) topK).filter
        (fun r => r.user_id == u)).map rowToChunk = l) :
    l.length ≤ topK ∧
    (∀ c ∈ l, ∃ r ∈ table, r.user_id = u ∧ rowToChunk r = c) ∧
    (∀ c ∈ l, simGtHalf (cosineSimilarity q c.embedding)) ∧
    l.Chain' (fun c₁ c₂ => jfGe (cosineSimilarity q c₁.embedding)
      (cosineSimilarity q c₂.embedding)) := by
  subst h
  rw [match_documents]
  set hits := (table.map (fun r => (r, cosineSimilarity q r.embedding))).filter
    (fun p => decide (∃ v : ℝ, p.2 = .num v ∧ (1 : ℝ)/2 < v)) with hhits
  set sortedHits := List.insertionSort simRowLe hits with hsorted
  have hmem : ∀ r : StoredRow, r ∈ (sortedHits.take topK).map (·.1) →
      ∃ p : StoredRow × JFloat, p ∈ hits ∧ p.1 = r := by
    intro r hr
    rcases List.mem_map.1 hr with ⟨p, hp, rfl⟩
    exact ⟨p, ((List.perm_insertionSort simRowLe hits).mem_iff).1
      (List.take_subset topK sortedHits hp), rfl⟩
  refine ⟨?_, ?_, ?_, ?_⟩
  · rw [List.length_map]
    refine le_trans (List.length_filter_le _ _) ?_
    rw [List.length_map, List.length_take]
    exact min_le_left _ _
  · intro c hc
    rcases List.mem_map.1 hc with ⟨r, hr, rfl⟩
    rcases List.mem_filter.1 hr with ⟨hrm, hru⟩
    rcases hmem r hrm with ⟨p, hp, rfl⟩
    rcases mem_hits_fact table q _ p hp with ⟨h1, _, _⟩
    exact ⟨p.1, h1, beq_iff_eq.1 hru, rfl⟩
  · intro c hc
    rcases List.mem_map.1 hc with ⟨r, hr, rfl⟩
    rcases List.mem_filter.1 hr with ⟨hrm, _⟩
    rcases hmem r hrm with ⟨p, hp, rfl⟩
    rcases mem_hits_fact table q _ p hp with ⟨_, h2, v, hv, hv2⟩
    rw [rowToChunk_embedding, ← h2]
    exact simGtHalf_of_num p.2 v hv hv2
  · have hP : ∀ p ∈ hits, ∃ v : ℝ, p.2 = .num v := by
      intro p hp
      rcases mem_hits_fact table q _ p hp with ⟨_, _, v, hv, _⟩
      exact ⟨v, hv⟩
    have hpw : sortedHits.Pairwise simRowLe :=
      pairwise_insertionSort_localized simRowLe _ simRowLe_total_on_num
        simRowLe_trans_on_num hits hP
    have hpw1 : (sortedHits.take topK).Pairwise simRowLe :=
      List.Pairwise.sublist (List.take_sublist _ _) hpw
    have hpwRows : ((sortedHits.take topK).map (·.1)).Pairwise
        (fun r r' : StoredRow => jfGe (cosineSimilarity q r.embedding)
          (cosineSimilarity q r'.embedding)) := by
      rw [List.pairwise_map]
      refine List.Pairwise.imp_of_mem ?_ hpw1
      intro p p' hp hp' hle
      have hpin := ((List.perm_insertionSort simRowLe hits).mem_iff).1
        (List.take_subset topK sortedHits hp)
      have hpin' := ((List.perm_insertionSort simRowLe hits).mem_iff).1
        (List.take_subset topK sortedHits hp')
      rcases mem_hits_fact table q _ p hpin with ⟨_, h2, v, hv, _⟩
      rcases mem_hits_fact table q _ p' hpin' with ⟨_, h2', v', hv', _⟩
      have hge := simRowLe_num_ge p p' v v' hv hv' hle
      rw [← h2, ← h2', hv, hv']
      exact hge
    apply List.Pairwise.chain'
    rw [List.pairwise_map]
    refine List.Pairwise.imp_of_mem ?_
      (List.Pairwise.sublist (List.filter_sublist _) hpwRows)
    intro r r' _ _ hle
    exact hle

/-! ## C1: search contract -/

/-- C1 as amended: every successful search result (on either path) has at
most topK chunks, all drawn from rows of the requesting owner, and only
chunks whose cosine similarity to the query strictly exceeds 0.5 (so an
empty result is possible); the result is ordered by descending cosine
similarity provided no candidate similarity of the owner is NaN — when a
stored zero-vector embedding makes a candidate similarity NaN, the inconsistent
sort comparator can leave the returned chunks out of order. -/
theorem C1_search_contract :
    ∀ (table : List StoredRow) (q : List ℝ) (topK : ℕ) (userId : String)
      (rpcOk : Bool) (fetchErr : Option String) (l : List DocumentChunk),
      search table q topK userId rpcOk fetchErr = .ok l →
      l.length ≤ topK ∧
      (∀ c ∈ l, ∃ r ∈ table, r.user_id = userId ∧ rowToChunk r = c) ∧
      (∀ c ∈ l, simGtHalf (cosineSimilarity q c.embedding)) ∧
      ((∀ r ∈ table, r.user_id = userId → cosineSimilarity q r.embedding ≠ .nan) →
        l.Chain' (fun c₁ c₂ => jfGe (cosineSimilarity q c₁.embedding)
          (cosineSimilarity q c₂.embedding))) := by
  intro table q topK userId rpcOk fetchErr l h
  cases rpcOk with
  | true =>
    rw [search, if_pos rfl] at h
    have h' := search_rpc_contract table q topK userId l (Except.ok.inj h)
    exact ⟨h'.1, h'.2.1, h'.2.2.1, fun _ => h'.2.2.2⟩
  | false =>
    rw [search, if_neg (by simp)] at h
    exact searchWithDirectQuery_contract table q topK userId fetchErr l h

/-- Witness for C1 at a one-row store: the single chunk of owner "u" with
embedding (1) matches the query (1) with similarity 1 and is returned, and
the contract holds at this input. -/
theorem C1_witness :
    search [⟨"r1", "t1", [1], "f", 0, "s", "u"⟩] [1] 5 "u" false none
        = .ok [rowToChunk ⟨"r1", "t1", [1], "f", 0, "s", "u"⟩] ∧
    ([rowToChunk ⟨"r1", "t1", [1], "f", 0, "s", "u"⟩].length ≤ 5 ∧
     (∀ c ∈ [rowToChunk ⟨"r1", "t1", [1], "f", 0, "s", "u"⟩],
       ∃ r ∈ [(⟨"r1", "t1", [1], "f", 0, "s", "u"⟩ : StoredRow)],
         r.user_id = "u" ∧ rowToChunk r = c) ∧
     (∀ c ∈ [rowToChunk ⟨"r1", "t1", [1], "f", 0, "s", "u"⟩],
       simGtHalf (cosineSimilarity [1] c.embedding)) ∧
     ((∀ r ∈ [(⟨"r1", "t1", [1], "f", 0, "s", "u"⟩ : StoredRow)],
         r.user_id = "u" → cosineSimilarity [1] r.embedding ≠ .nan) →
       List.Chain' (fun c₁ c₂ => jfGe (cosineSimilarity [1] c₁.embedding)
         (cosineSimilarity [1] c₂.embedding))
         [rowToChunk ⟨"r1", "t1", [1], "f", 0, "s", "u"⟩])) := by
  have hc : cosineSimilarity [(1 : ℝ)] [1] = .num 1 := by
    have := cosineSimilarity_eq_num [(1 : ℝ)] [1] 1 1 rfl (by norm_num) (by norm_num)
      (by simp [normSq]) (by simp [normSq]) (by norm_num)
    rw [this]
    norm_num [dotProduct]
  have hdec : decide (simGtHalf (JFloat.num 1)) = true :=
    decide_eq_true (by norm_num [simGtHalf])
  have heval : search [⟨"r1", "t1", [1], "f", 0, "s", "u"⟩] [1] 5 "u" false none
      = .ok [rowToChunk ⟨"r1", "t1", [1], "f", 0, "s", "u"⟩] := by
    rw [search, if_neg (by simp)]
    rw [show searchWithDirectQuery [⟨"r1", "t1", [1], "f", 0, "s", "u"⟩] [1] 5 "u" none
        = .ok ((((List.insertionSort simRowLe
            [((⟨"r1", "t1", [1], "f", 0, "s", "u"⟩ : StoredRow),
              cosineSimilarity [1] [1])]).take 5).filter
          (fun p => decide (simGtHalf p.2))).map (fun p => rowToChunk p.1)) from rfl]
    rw [hc]
    simp only [List.insertionSort, List.orderedInsert, List.take,
      List.filter_cons, List.filter_nil, hdec, if_true, List.map_cons, List.map_nil]
  exact ⟨heval, C1_search_contract _ _ _ _ _ _ _ heval⟩

/-- C1 counterexample: a store for owner "u" holding, in insertion order,
a zero-vector chunk, a chunk with similarity 3/5 to the query (3, 4), a
second zero-vector chunk, and a chunk with similarity 24/25.  The two
zero-vector chunks have similarity NaN, every comparator call against them
is a tie, so the stable sort leaves the list in its original order; the
threshold then removes the NaN chunks and search returns the similarity-3/5
chunk BEFORE the similarity-24/25 chunk — the result is not ordered by
descending cosine similarity, refuting the claim as stated. -/
theorem C1_counterexample :
    search
        [⟨"n1", "t1", [0, 0], "f", 0, "s1", "u"⟩,
         ⟨"a", "t2", [5, 0], "f", 1, "s2", "u"⟩,
         ⟨"n2", "t3", [0, 0], "f", 2, "s3", "u"⟩,
         ⟨"b", "t4", [4, 3], "f", 3, "s4", "u"⟩]
        [3, 4] 4 "u" false none
      = .ok [rowToChunk ⟨"a", "t2", [5, 0], "f", 1, "s2", "u"⟩,
             rowToChunk ⟨"b", "t4", [4, 3], "f", 3, "s4", "u"⟩] ∧
    cosineSimilarity [3, 4]
        (rowToChunk ⟨"a", "t2", [5, 0], "f", 1, "s2", "u"⟩).embedding
      = .num (3 / 5) ∧
    cosineSimilarity [3, 4]
        (rowToChunk ⟨"b", "t4", [4, 3], "f", 3, "s4", "u"⟩).embedding
      = .num (24 / 25) ∧
    (3 / 5 : ℝ) < 24 / 25 := by
  have hnan : cosineSimilarity [(3 : ℝ), 4] [0, 0] = .nan :=
    cosineSimilarity_nan_right [3, 4] [0, 0] rfl (by simp)
  have hca : cosineSimilarity [(3 : ℝ), 4] [5, 0] = .num (3 / 5) := by
    have := cosineSimilarity_eq_num [(3 : ℝ), 4] [5, 0] 5 5 rfl (by norm_num)
      (by norm_num) (by norm_num [normSq]) (by norm_num [normSq])
      (by norm_num)
    rw [this]
    norm_num [dotProduct]
  have hcb : cosineSimilarity [(3 : ℝ), 4] [4, 3] = .num (24 / 25) := by
    have := cosineSimilarity_eq_num [(3 : ℝ), 4] [4, 3] 5 5 rfl (by norm_num)
      (by norm_num) (by norm_num [normSq]) (by norm_num [normSq])
      (by norm_num)
    rw [this]
    norm_num [dotProduct]
  have hT1 : simRowLe ((⟨"n2", "t3", [0, 0], "f", 2, "s3", "u"⟩ : StoredRow), JFloat.nan)
      ((⟨"b", "t4", [4, 3], "f", 3, "s4", "u"⟩ : StoredRow), JFloat.num (24 / 25)) := by
    simp [simRowLe, jfSub, sortKeyNonPos]
  have hT2 : simRowLe ((⟨"a", "t2", [5, 0], "f", 1, "s2", "u"⟩ : StoredRow), JFloat.num (3 / 5))
      ((⟨"n2", "t3", [0, 0], "f", 2, "s3", "u"⟩ : StoredRow), JFloat.nan) := by
    simp [simRowLe, jfSub, sortKeyNonPos]
  have hT3 : simRowLe ((⟨"n1", "t1", [0, 0], "f", 0, "s1", "u"⟩ : StoredRow), JFloat.nan)
      ((⟨"a", "t2", [5, 0], "f", 1, "s2", "u"⟩ : StoredRow), JFloat.num (3 / 5)) := by
    simp [simRowLe, jfSub, sortKeyNonPos]
  have hdnan : decide (simGtHalf JFloat.nan) = false :=
    decide_eq_false (by simp [simGtHalf])
  have hda : decide (simGtHalf (JFloat.num (3 / 5))) = true :=
    decide_eq_true (by norm_num [simGtHalf])
  have hdb : decide (simGtHalf (JFloat.num (24 / 25))) = true :=
    decide_eq_true (by norm_num [simGtHalf])
  refine ⟨?_, hca, hcb, by norm_num⟩
  rw [search, if_neg (by simp)]
  rw [show searchWithDirectQuery
      [⟨"n1", "t1", [0, 0], "f", 0, "s1", "u"⟩,
       ⟨"a", "t2", [5, 0], "f", 1, "s2", "u"⟩,
       ⟨"n2", "t3", [0, 0], "f", 2, "s3", "u"⟩,
       ⟨"b", "t4", [4, 3], "f", 3, "s4", "u"⟩] [3, 4] 4 "u" none
    = .ok ((((List.insertionSort simRowLe
        [((⟨"n1", "t1", [0, 0], "f", 0, "s1", "u"⟩ : StoredRow),
          cosineSimilarity [3, 4] [0, 0]),
         ((⟨"a", "t2", [5, 0], "f", 1, "s2", "u"⟩ : StoredRow),
          cosineSimilarity [3, 4] [5, 0]),
         ((⟨"n2", "t3", [0, 0], "f", 2, "s3", "u"⟩ : StoredRow),
          cosineSimilarity [3, 4] [0, 0]),
         ((⟨"b", "t4", [4, 3], "f", 3, "s4", "u"⟩ : StoredRow),
          cosineSimilarity [3, 4] [4, 3])]).take 4).filter
      (fun p => decide (simGtHalf p.2))).map (fun p => rowToChunk p.1)) from rfl]
  rw [hnan, hca, hcb]
  have s2 : List.orderedInsert simRowLe
      ((⟨"n2", "t3", [0, 0], "f", 2, "s3", "u"⟩ : StoredRow), JFloat.nan)
      [((⟨"b", "t4", [4, 3], "f", 3, "s4", "u"⟩ : StoredRow), JFloat.num (24 / 25))]
      = [((⟨"n2", "t3", [0, 0], "f", 2, "s3", "u"⟩ : StoredRow), JFloat.nan),
         ((⟨"b", "t4", [4, 3], "f", 3, "s4", "u"⟩ : StoredRow), JFloat.num (24 / 25))] := by
    simp only [List.orderedInsert]
    rw [if_pos hT1]
  have s3 : List.orderedInsert simRowLe
      ((⟨"a", "t2", [5, 0], "f", 1, "s2", "u"⟩ : StoredRow), JFloat.num (3 / 5))
      [((⟨"n2", "t3", [0, 0], "f", 2, "s3", "u"⟩ : StoredRow), JFloat.nan),
       ((⟨"b", "t4", [4, 3], "f", 3, "s4", "u"⟩ : StoredRow), JFloat.num (24 / 25))]
      = [((⟨"a", "t2", [5, 0], "f", 1, "s2", "u"⟩ : StoredRow), JFloat.num (3 / 5)),
         ((⟨"n2", "t3", [0, 0], "f", 2, "s3", "u"⟩ : StoredRow), JFloat.nan),
         ((⟨"b", "t4", [4, 3], "f", 3, "s4", "u"⟩ : StoredRow), JFloat.num (24 / 25))] := by
    simp only [List.orderedInsert]
    rw [if_pos hT2]
  have s4 : List.orderedInsert simRowLe
      ((⟨"n1", "t1", [0, 0], "f", 0, "s1", "u"⟩ : StoredRow), JFloat.nan)
      [((⟨"a", "t2", [5, 0], "f", 1, "s2", "u"⟩ : StoredRow), JFloat.num (3 / 5)),
       ((⟨"n2", "t3", [0, 0], "f", 2, "s3", "u"⟩ : StoredRow), JFloat.nan),
       ((⟨"b", "t4", [4, 3], "f", 3, "s4", "u"⟩ : StoredRow), JFloat.num (24 / 25))]
      = [((⟨"n1", "t1", [0, 0], "f", 0, "s1", "u"⟩ : StoredRow), JFloat.nan),
         ((⟨"a", "t2", [5, 0], "f", 1, "s2", "u"⟩ : StoredRow), JFloat.num (3 / 5)),
         ((⟨"n2", "t3", [0, 0], "f", 2, "s3", "u"⟩ : StoredRow), JFloat.nan),
         ((⟨"b", "t4", [4, 3], "f", 3, "s4", "u"⟩ : StoredRow), JFloat.num (24 / 25))] := by
    simp only [List.orderedInsert]
    rw [if_pos hT3]
  rw [show List.insertionSort simRowLe
      [((⟨"n1", "t1", [0, 0], "f", 0, "s1", "u"⟩ : StoredRow), JFloat.nan),
       ((⟨"a", "t2", [5, 0], "f", 1, "s2", "u"⟩ : StoredRow), JFloat.num (3 / 5)),
       ((⟨"n2", "t3", [0, 0], "f", 2, "s3", "u"⟩ : StoredRow), JFloat.nan),
       ((⟨"b", "t4", [4, 3], "f", 3, "s4", "u"⟩ : StoredRow), JFloat.num (24 / 25))]
    = List.orderedInsert simRowLe
        ((⟨"n1", "t1", [0, 0], "f", 0, "s1", "u"⟩ : StoredRow), JFloat.nan)
        (List.orderedInsert simRowLe
          ((⟨"a", "t2", [5, 0], "f", 1, "s2", "u"⟩ : StoredRow), JFloat.num (3 / 5))
          (List.orderedInsert simRowLe
            ((⟨"n2", "t3", [0, 0], "f", 2, "s3", "u"⟩ : StoredRow), JFloat.nan)
            [((⟨"b", "t4", [4, 3], "f", 3, "s4", "u"⟩ : StoredRow),
              JFloat.num (24 / 25))])) from rfl]
  rw [s2, s3, s4]
  simp only [List.take, List.filter_cons, List.filter_nil, hdnan, hda, hdb,
    Bool.false_eq_true, if_true, if_false, List.map_cons, List.map_nil]

/-! ## C2: owner isolation -/

lemma search_sourceRow (table : List StoredRow) (q : List ℝ) (topK : ℕ)
    (u : String) (rpcOk : Bool) (fe : Option String) (l : List DocumentChunk)
    (h : search table q topK u rpcOk fe = .ok l) :
    ∀ c ∈ l, ∃ r ∈ table, r.user_id = u ∧ rowToChunk r = c := by
  cases rpcOk with
  | false =>
    rw [search, if_neg (by simp)] at h
    exact (searchWithDirectQuery_contract table q topK u fe l h).2.1
  | true =>
    rw [search, if_pos rfl] at h
    exact (search_rpc_contract table q topK u l (Except.ok.inj h)).2.1

lemma getAllDocuments_sourceRow (table : List StoredRow) (u : String)
    (err : Option String) (l : List DocumentChunk)
    (h : getAllDocuments table u err = .ok l) :
    ∀ c ∈ l, ∃ r ∈ table, r.user_id = u ∧ rowToChunk r = c := by
  cases err with
  | some m =>
    have hl : l = [] := (Except.ok.inj h).symm
    subst hl
    simp
  | none =>
    rw [getAllDocuments] at h
    have hl := (Except.ok.inj h).symm
    subst hl
    intro c hc
    rcases List.mem_map.1 hc with ⟨rr, hrr, rfl⟩
    have hrr2 := ((List.perm_insertionSort
      (fun a b : StoredRow => b.created_at ≤ a.created_at) _).mem_iff).1 hrr
    rcases List.mem_filter.1 hrr2 with ⟨hrt, hru⟩
    exact ⟨rr, hrt, beq_iff_eq.1 hru, rfl⟩

/-- C2: for distinct owners A and B, a chunk inserted under A (with a fresh
id) is never contained in the result of search (on either path) nor of
getAllDocuments scoped to B, and inserting it leaves getCount for B
unchanged. -/
theorem C2_owner_isolation :
    ∀ (table : List StoredRow) (chunks : List ChunkInput) (ids : List String)
      (A B : String) (q : List ℝ) (k : ℕ) (rpcOk : Bool)
      (fe ge ce : Option String) (r : StoredRow),
      A ≠ B →
      r ∈ addedRows chunks ids A →
      (∀ r' ∈ table, r'.id ≠ r.id) →
      (∀ l, search (addDocuments table chunks ids A).1 q k B rpcOk fe = .ok l →
        rowToChunk r ∉ l) ∧
      (∀ l, getAllDocuments (addDocuments table chunks ids A).1 B ge = .ok l →
        rowToChunk r ∉ l) ∧
      getCount (addDocuments table chunks ids A).1 B ce = getCount table B ce := by
  intro table chunks ids A B q k rpcOk fe ge ce r hAB hr hfresh
  have hexcl : ∀ rr, rr ∈ table ++ addedRows chunks ids A → rr.user_id = B →
      rowToChunk rr = rowToChunk r → False := by
    intro rr hmem hB heq
    have hid : rr.id = r.id := congrArg DocumentChunk.id heq
    rcases List.mem_append.1 hmem with h | h
    · exact hfresh rr h hid
    · have hA : rr.user_id = A := by
        rcases List.mem_map.1 h with ⟨p, _, rfl⟩
        rfl
      exact hAB (hA.symm.trans hB)
  refine ⟨?_, ?_, ?_⟩
  · intro l hl hc
    rcases search_sourceRow _ q k B rpcOk fe l hl (rowToChunk r) hc with
      ⟨rr, hmem, hB, heq⟩
    exact hexcl rr hmem hB heq
  · intro l hl hc
    rcases getAllDocuments_sourceRow _ B ge l hl (rowToChunk r) hc with
      ⟨rr, hmem, hB, heq⟩
    exact hexcl rr hmem hB heq
  · cases ce with
    | some m => rfl
    | none =>
      rw [getCount, getCount]
      have hnil : (addedRows chunks ids A).filter (fun x => x.user_id == B) = [] := by
        rw [List.filter_eq_nil_iff]
        intro x hx
        rcases List.mem_map.1 hx with ⟨p, _, rfl⟩
        intro hbeq
        exact hAB (beq_iff_eq.1 hbeq)
      rw [show (addDocuments table chunks ids A).1
          = table ++ addedRows chunks ids A from rfl]
      rw [List.filter_append, hnil, List.append_nil]

/-- Witness for C2: owner A inserts one chunk with fresh id "y" into a store
holding one chunk of owner B; the inserted chunk is excluded from all
B-scoped reads and does not change the B count. -/
theorem C2_witness :
    ("A" : String) ≠ "B" ∧
    (⟨"y", "ct", [1], "cf", 0, "cs", "A"⟩ : StoredRow)
      ∈ addedRows [⟨"ct", [1], "cf", 0, "cs"⟩] ["y"] "A" ∧
    (∀ r' ∈ [(⟨"x", "tx", [1], "fx", 0, "sx", "B"⟩ : StoredRow)],
      r'.id ≠ ("y" : String)) ∧
    ((∀ l, search (addDocuments [⟨"x", "tx", [1], "fx", 0, "sx", "B"⟩]
          [⟨"ct", [1], "cf", 0, "cs"⟩] ["y"] "A").1 [1] 5 "B" false none = .ok l →
        rowToChunk ⟨"y", "ct", [1], "cf", 0, "cs", "A"⟩ ∉ l) ∧
     (∀ l, getAllDocuments (addDocuments [⟨"x", "tx", [1], "fx", 0, "sx", "B"⟩]
          [⟨"ct", [1], "cf", 0, "cs"⟩] ["y"] "A").1 "B" none = .ok l →
        rowToChunk ⟨"y", "ct", [1], "cf", 0, "cs", "A"⟩ ∉ l) ∧
     getCount (addDocuments [⟨"x", "tx", [1], "fx", 0, "sx", "B"⟩]
          [⟨"ct", [1], "cf", 0, "cs"⟩] ["y"] "A").1 "B" none
       = getCount [⟨"x", "tx", [1], "fx", 0, "sx", "B"⟩] "B" none) :=
  ⟨by decide,
   List.mem_singleton.2 rfl,
   by
     intro r' hr'
     rcases List.mem_singleton.1 hr' with rfl
     decide,
   C2_owner_isolation [⟨"x", "tx", [1], "fx", 0, "sx", "B"⟩]
     [⟨"ct", [1], "cf", 0, "cs"⟩] ["y"] "A" "B" [1] 5 false none none none
     ⟨"y", "ct", [1], "cf", 0, "cs", "A"⟩ (by decide)
     (List.mem_singleton.2 rfl)
     (by
       intro r' hr'
       rcases List.mem_singleton.1 hr' with rfl
       decide)⟩
